import Mathlib

/-!
Verification of the log-shipping record transformation pipeline
(`src/app.ts`: `isRequestLogEntry`, `fieldValue`, `parseReportField`,
`lambdaRequestLogData`, `parseMessageJson`, `parseNodeLogFormat`,
`parseLambdaLogLine`, `createStructuredLog`).

The TypeScript source is shallowly embedded: JS objects become ordered
association lists (insertion-order semantics, in-place update on existing
keys), JS numbers become exact rationals (with an explicit NaN / Infinity
marker where `parseFloat` can produce them), and code that can throw a
runtime `TypeError` returns `Except Unit`.
-/

namespace CWL

/-- An exact rational number in lowest terms with positive denominator,
representing a finite JS number value. -/
structure Q where
  num : Int
  den : Nat
deriving DecidableEq

/-- The normalized rational `n / d` (`d ≠ 0` expected; `d = 0` is mapped
to zero and never arises from the embedded code). -/
def mkQ (n d : Int) : Q :=
  if d = 0 then ⟨0, 1⟩
  else
    let n' : Int := if d < 0 then -n else n
    let d' : Nat := (if d < 0 then -d else d).toNat
    let g : Nat := Nat.gcd n'.natAbs d'
    ⟨n' / (g : Int), d' / g⟩

/-- Rational of a natural number. -/
def qOfNat (n : Nat) : Q := ⟨(n : Int), 1⟩

/-- Rational addition (renormalizing). -/
def qAdd (a b : Q) : Q :=
  mkQ (a.num * (b.den : Int) + b.num * (a.den : Int)) ((a.den : Int) * (b.den : Int))

/-- Rational multiplication (renormalizing). -/
def qMul (a b : Q) : Q := mkQ (a.num * b.num) ((a.den : Int) * (b.den : Int))

/-- Rational division (renormalizing). -/
def qDiv (a b : Q) : Q := mkQ (a.num * (b.den : Int)) ((a.den : Int) * b.num)

/-- Rational negation. -/
def qNeg (a : Q) : Q := ⟨-a.num, a.den⟩

/-- Scale a rational by a signed power of ten. -/
def qScale10 (q : Q) (e : Int) : Q :=
  if 0 ≤ e then qMul q (qOfNat ((10 : Nat) ^ e.toNat))
  else qDiv q (qOfNat ((10 : Nat) ^ (-e).toNat))

/-- A JavaScript/JSON value as produced by `JSON.parse` and manipulated by
the parsers.  Objects are ordered association lists, mirroring JS property
insertion order. -/
inductive JVal where
  | vNull : JVal
  | vBool : Bool → JVal
  | vNum : Q → JVal
  | vNaN : JVal
  | vInf : Bool → JVal
  | vStr : String → JVal
  | vArr : List JVal → JVal
  | vObj : List (String × JVal) → JVal

/-- A JS object: ordered list of (key, value) properties. -/
abbrev Obj := List (String × JVal)

/-! ## JS string primitives (character-exact models of the builtins used) -/

/-- Whitespace recognized by JS `String.prototype.trim` (ASCII part). -/
def jsWsChar (c : Char) : Bool :=
  c = ' ' || c = '\t' || c = '\n' || c = '\r' || c = '\x0b' || c = '\x0c'

/-- Model of `String.prototype.trim`. -/
def jsTrim (s : String) : String :=
  String.mk (((s.data.dropWhile jsWsChar).reverse.dropWhile jsWsChar).reverse)

/-- Split a character list at every occurrence of `sep`; always returns at
least one (possibly empty) chunk, like JS `String.prototype.split` with a
single-character separator. -/
def splitCh (sep : Char) : List Char → List (List Char)
  | [] => [[]]
  | c :: cs =>
    match splitCh sep cs with
    | [] => [[]]
    | h :: t => if c = sep then [] :: h :: t else (c :: h) :: t

/-- Model of `s.split(sep)` for a one-character separator. -/
def jsSplit (sep : Char) (s : String) : List String :=
  (splitCh sep s.data).map String.mk

/-- Index (in characters) of the first occurrence of `pat` in the list,
searching from offset `i`. -/
def idxAux (pat : List Char) : List Char → Nat → Option Nat
  | [], i => if pat.isPrefixOf ([] : List Char) then some i else none
  | c :: cs, i =>
    if pat.isPrefixOf (c :: cs) then some i else idxAux pat cs (i + 1)

/-- Model of `s.indexOf(pat)`: character index of the first occurrence, or
`-1` when absent. -/
def jsIndexOf (s pat : String) : Int :=
  match idxAux pat.data s.data 0 with
  | some n => (n : Int)
  | none => -1

/-- Model of `s.substr(start, length?)` (legacy JS semantics: a negative
start counts from the end, a negative length yields the empty string, a
missing length extends to the end of the string). -/
def jsSubstr (s : String) (start : Int) (len : Option Int) : String :=
  let size : Int := (s.data.length : Int)
  let b0 : Int := if start < 0 then max (size + start) 0 else start
  let b : Int := min b0 size
  let takeN : Int :=
    match len with
    | none => size - b
    | some L => max L 0
  String.mk ((s.data.drop b.toNat).take takeN.toNat)

/-- Model of `s.startsWith(pre)`. -/
def strStartsWith (s pre : String) : Bool :=
  pre.data.isPrefixOf s.data

/-- Model of `s.replace(/ /g, '')`. -/
def removeSpaces (s : String) : String :=
  String.mk (s.data.filter (fun c => !(c = ' ')))

/-- Model of `s.charAt(0).toLowerCase() + s.slice(1)`. -/
def lowerFirst (s : String) : String :=
  match s.data with
  | [] => ""
  | c :: cs => String.mk (c.toLower :: cs)

/-- Numeric value of a list of decimal digits. -/
def digitsToNat (l : List Char) : Nat :=
  l.foldl (fun a c => a * 10 + (c.toNat - '0'.toNat)) 0

/-! ## `parseFloat` -/

/-- Model of the JS builtin `parseFloat`: skip leading whitespace, read an
optional sign, then the longest prefix that is `Infinity` or a decimal
literal (`digits [. digits] [e [sign] digits]`); `NaN` when no prefix
parses.  The numeric value is represented exactly as a rational. -/
def parseFloatJS (s : String) : JVal :=
  let l0 := s.data.dropWhile jsWsChar
  let (neg, l1) :=
    match l0 with
    | '-' :: r => (true, r)
    | '+' :: r => (false, r)
    | _ => (false, l0)
  if "Infinity".data.isPrefixOf l1 then JVal.vInf neg
  else
    let ip := l1.takeWhile Char.isDigit
    let r1 := l1.drop ip.length
    let (fp, r2) :=
      match r1 with
      | '.' :: r => (r.takeWhile Char.isDigit, r.drop (r.takeWhile Char.isDigit).length)
      | _ => ([], r1)
    if ip.isEmpty && fp.isEmpty then JVal.vNaN
    else
      let mantissa : Q :=
        qAdd (qOfNat (digitsToNat ip)) (qScale10 (qOfNat (digitsToNat fp)) (-(fp.length : Int)))
      let expVal : Int :=
        match r2 with
        | 'e' :: rest | 'E' :: rest =>
          let (eneg, r3) :=
            match rest with
            | '-' :: r => (true, r)
            | '+' :: r => (false, r)
            | _ => (false, rest)
          let ed := r3.takeWhile Char.isDigit
          if ed.isEmpty then 0 else (if eneg then -(digitsToNat ed : Int) else (digitsToNat ed : Int))
        | _ => 0
      JVal.vNum (qScale10 (if neg then qNeg mantissa else mantissa) expVal)

/-! ## `JSON.parse` -/

/-- JSON insignificant whitespace. -/
def jsonWs (c : Char) : Bool :=
  c = ' ' || c = '\t' || c = '\n' || c = '\r'

/-- Set a property on a JS object: update in place when the key exists
(keeping its position, as JS property assignment does), else append. -/
def objSet (o : Obj) (k : String) (v : JVal) : Obj :=
  match o with
  | [] => [(k, v)]
  | (k', v') :: rest => if k' = k then (k', v) :: rest else (k', v') :: objSet rest k v

/-- Read a property of a JS object (`none` = absent / `undefined`). -/
def objGet (o : Obj) (k : String) : Option JVal :=
  match o with
  | [] => none
  | (k', v) :: rest => if k' = k then some v else objGet rest k

/-- Hexadecimal digit value. -/
def hexVal? (c : Char) : Option Nat :=
  if '0' ≤ c ∧ c ≤ '9' then some (c.toNat - '0'.toNat)
  else if 'a' ≤ c ∧ c ≤ 'f' then some (c.toNat - 'a'.toNat + 10)
  else if 'A' ≤ c ∧ c ≤ 'F' then some (c.toNat - 'A'.toNat + 10)
  else none

/-- Parse the body of a JSON string literal (after the opening quote),
returning the decoded characters and the remaining input.  `fuel` bounds
the recursion and is kept strictly larger than the input length. -/
def pStrAux : Nat → List Char → Option (List Char × List Char)
  | 0, _ => none
  | _ + 1, [] => none
  | _ + 1, '"' :: r => some ([], r)
  | fuel + 1, '\\' :: r =>
    match r with
    | [] => none
    | 'u' :: h1 :: h2 :: h3 :: h4 :: r2 =>
      match hexVal? h1, hexVal? h2, hexVal? h3, hexVal? h4 with
      | some a, some b, some c, some d =>
        (pStrAux fuel r2).map (fun p => (Char.ofNat (((a * 16 + b) * 16 + c) * 16 + d) :: p.1, p.2))
      | _, _, _, _ => none
    | e :: r2 =>
      let dec : Option Char :=
        if e = '"' then some '"'
        else if e = '\\' then some '\\'
        else if e = '/' then some '/'
        else if e = 'b' then some '\x08'
        else if e = 'f' then some '\x0c'
        else if e = 'n' then some '\n'
        else if e = 'r' then some '\r'
        else if e = 't' then some '\t'
        else none
      match dec with
      | some c => (pStrAux fuel r2).map (fun p => (c :: p.1, p.2))
      | none => none
  | fuel + 1, c :: r =>
    if c.toNat < 0x20 then none
    else (pStrAux fuel r).map (fun p => (c :: p.1, p.2))

/-- Parse a JSON number (strict JSON grammar: optional minus, integer part
without leading zeros, optional fraction, optional exponent). -/
def pNum : List Char → Option (JVal × List Char)
  | l =>
    let (neg, l1) := match l with | '-' :: r => (true, r) | _ => (false, l)
    let ip := l1.takeWhile Char.isDigit
    if ip.isEmpty then none
    else if 1 < ip.length ∧ ip.headD '0' = '0' then none
    else
      let r1 := l1.drop ip.length
      let (fp, r2) :=
        match r1 with
        | '.' :: r => (r.takeWhile Char.isDigit, r.drop (r.takeWhile Char.isDigit).length)
        | _ => ([], r1)
      if (match r1 with | '.' :: _ => fp.isEmpty | _ => false) then none
      else
        let hasFrac : Bool := match r1 with | '.' :: _ => true | _ => false
        let expRes : Option (Int × List Char) :=
          match r2 with
          | 'e' :: rest | 'E' :: rest =>
            let (eneg, r3) :=
              match rest with
              | '-' :: r => (true, r)
              | '+' :: r => (false, r)
              | _ => (false, rest)
            let ed := r3.takeWhile Char.isDigit
            if ed.isEmpty then none
            else some ((if eneg then -(digitsToNat ed : Int) else (digitsToNat ed : Int)),
                       r3.drop ed.length)
          | _ => some (0, r2)
        match expRes with
        | none => none
        | some (ex, rest) =>
          let fpl := if hasFrac then fp else []
          let mantissa : Q :=
            qAdd (qOfNat (digitsToNat ip))
              (qScale10 (qOfNat (digitsToNat fpl)) (-(fpl.length : Int)))
          some (JVal.vNum (qScale10 (if neg then qNeg mantissa else mantissa) ex), rest)

/-- Intermediate result of the recursive-descent JSON parser: a value, an
object member list, or an array element list. -/
inductive PRes where
  | rVal : JVal → PRes
  | rMembers : List (String × JVal) → PRes
  | rElems : List JVal → PRes

/-- Fuel-bounded recursive-descent JSON parser.  `mode` selects the
grammar production: `0` = value, `1` = object members, `2` = array
elements.  A single structurally recursive function so that it reduces
definitionally. -/
def pAux : Nat → Nat → List Char → Option (PRes × List Char)
  | 0, _, _ => none
  | fuel + 1, 0, l =>
    (match l with
     | [] => none
     | '{' :: r =>
       let r := r.dropWhile jsonWs
       (match r with
        | '}' :: r2 => some (PRes.rVal (JVal.vObj []), r2)
        | _ =>
          match pAux fuel 1 r with
          | some (PRes.rMembers ms, r2) =>
            (match r2.dropWhile jsonWs with
             | '}' :: r3 =>
               some (PRes.rVal (JVal.vObj (ms.foldl (fun a kv => objSet a kv.1 kv.2) [])), r3)
             | _ => none)
          | _ => none)
     | '[' :: r =>
       let r := r.dropWhile jsonWs
       (match r with
        | ']' :: r2 => some (PRes.rVal (JVal.vArr []), r2)
        | _ =>
          match pAux fuel 2 r with
          | some (PRes.rElems es, r2) =>
            (match r2.dropWhile jsonWs with
             | ']' :: r3 => some (PRes.rVal (JVal.vArr es), r3)
             | _ => none)
          | _ => none)
     | '"' :: r =>
       (match pStrAux (r.length + 1) r with
        | some (cs, r2) => some (PRes.rVal (JVal.vStr (String.mk cs)), r2)
        | none => none)
     | 't' :: r =>
       if "rue".data.isPrefixOf r then some (PRes.rVal (JVal.vBool true), r.drop 3) else none
     | 'f' :: r =>
       if "alse".data.isPrefixOf r then some (PRes.rVal (JVal.vBool false), r.drop 4) else none
     | 'n' :: r =>
       if "ull".data.isPrefixOf r then some (PRes.rVal JVal.vNull, r.drop 3) else none
     | _ =>
       match pNum l with
       | some (v, r) => some (PRes.rVal v, r)
       | none => none)
  | fuel + 1, 1, l =>
    (match l.dropWhile jsonWs with
     | '"' :: r =>
       (match pStrAux (r.length + 1) r with
        | some (ks, r2) =>
          (match r2.dropWhile jsonWs with
           | ':' :: r3 =>
             (match pAux fuel 0 (r3.dropWhile jsonWs) with
              | some (PRes.rVal v, r4) =>
                (match r4.dropWhile jsonWs with
                 | ',' :: r5 =>
                   (match pAux fuel 1 r5 with
                    | some (PRes.rMembers ms, r6) =>
                      some (PRes.rMembers ((String.mk ks, v) :: ms), r6)
                    | _ => none)
                 | _ => some (PRes.rMembers [(String.mk ks, v)], r4))
              | _ => none)
           | _ => none)
        | none => none)
     | _ => none)
  | fuel + 1, _, l =>
    (match pAux fuel 0 (l.dropWhile jsonWs) with
     | some (PRes.rVal v, r) =>
       (match r.dropWhile jsonWs with
        | ',' :: r2 =>
          (match pAux fuel 2 r2 with
           | some (PRes.rElems es, r3) => some (PRes.rElems (v :: es), r3)
           | _ => none)
        | _ => some (PRes.rElems [v], r))
     | _ => none)

/-- Model of `JSON.parse`: `none` models a thrown `SyntaxError`. -/
def jsonParse (s : String) : Option JVal :=
  let l := s.data.dropWhile jsonWs
  match pAux (8 * l.length + 16) 0 l with
  | some (PRes.rVal v, rest) => if (rest.dropWhile jsonWs).isEmpty then some v else none
  | _ => none

/-! ## `Date.parse` and `Date.prototype.toISOString` -/

/-- Two decimal digits in a bounded range. -/
def twoDigitsIn (a b : Char) (lo hi : Nat) : Bool :=
  a.isDigit && b.isDigit &&
    (decide (lo ≤ digitsToNat [a, b]) && decide (digitsToNat [a, b] ≤ hi))

/-- Time-zone designator of the ECMA-262 date-time string format:
empty, `Z`, or `±HH:mm`. -/
def tzOk : List Char → Bool
  | [] => true
  | ['Z'] => true
  | s :: h1 :: h2 :: ':' :: m1 :: m2 :: [] =>
    (s = '+' || s = '-') && twoDigitsIn h1 h2 0 23 && twoDigitsIn m1 m2 0 59
  | _ => false

/-- Seconds-and-milliseconds tail of the time part: empty, `:ss`, or
`:ss.sss` (one or more fractional digits), followed by the time zone. -/
def secondsOk : List Char → Bool
  | ':' :: s1 :: s2 :: rest =>
    twoDigitsIn s1 s2 0 59 &&
      (match rest with
       | '.' :: r =>
         let frac := r.takeWhile Char.isDigit
         !frac.isEmpty && frac.length ≤ 9 && tzOk (r.drop frac.length)
       | _ => tzOk rest)
  | rest => tzOk rest

/-- Time part of the ECMA-262 format: `HH:mm` then `secondsOk`. -/
def timeOk : List Char → Bool
  | h1 :: h2 :: ':' :: m1 :: m2 :: rest =>
    twoDigitsIn h1 h2 0 24 && twoDigitsIn m1 m2 0 59 && secondsOk rest
  | _ => false

/-- Day and optional time: empty, `-DD`, `-DDThh...`, or `Thh...`. -/
def dayTimeOk : List Char → Bool
  | [] => true
  | '-' :: d1 :: d2 :: rest =>
    twoDigitsIn d1 d2 1 31 && (match rest with
                               | [] => true
                               | 'T' :: t => timeOk t
                               | _ => false)
  | 'T' :: t => timeOk t
  | _ => false

/-- Month and everything after it: empty, `-MM...`, or `Thh...`. -/
def monthTimeOk : List Char → Bool
  | [] => true
  | '-' :: m1 :: m2 :: rest => twoDigitsIn m1 m2 1 12 && dayTimeOk rest
  | 'T' :: t => timeOk t
  | _ => false

/-- `dateValidCh l = true` iff `l` is an ECMA-262 date-time string
(`YYYY[-MM[-DD]][THH:mm[:ss[.sss]][Z|±HH:mm]]`). -/
def dateValidCh : List Char → Bool
  | y1 :: y2 :: y3 :: y4 :: rest =>
    y1.isDigit && y2.isDigit && y3.isDigit && y4.isDigit && monthTimeOk rest
  | _ => false

/-- Model of `!isNaN(Date.parse(s))`: the ECMA-262 specified ISO-8601
date-time format (the only format the language standard requires
`Date.parse` to accept). -/
def dateParseValid (s : String) : Bool :=
  dateValidCh s.data

/-- Left-pad the decimal representation of `n` with zeros to width `w`. -/
def padZ (w n : Nat) : String :=
  let s := toString n
  String.mk (List.replicate (w - s.data.length) '0') ++ s

/-- Proleptic Gregorian civil date from days since the Unix epoch
(the standard era-based conversion used for `Date` arithmetic). -/
def civilFromDays (z0 : Int) : Int × Nat × Nat :=
  let z : Int := z0 + 719468
  let era : Int := z.ediv 146097
  let doe : Nat := (z - era * 146097).toNat
  let yoe : Nat := (doe - doe / 1460 + doe / 36524 - doe / 146096) / 365
  let y : Int := (yoe : Int) + era * 400
  let doy : Nat := doe - (365 * yoe + yoe / 4 - yoe / 100)
  let mp : Nat := (5 * doy + 2) / 153
  let d : Nat := doy - (153 * mp + 2) / 5 + 1
  let m : Nat := if mp < 10 then mp + 3 else mp - 9
  (if m ≤ 2 then y + 1 else y, m, d)

/-- Model of `new Date(ms).toISOString()`:
`YYYY-MM-DDTHH:mm:ss.sssZ` (expanded-year form outside 0..9999). -/
def toISOString (ms : Int) : String :=
  let days := ms.ediv 86400000
  let msod : Nat := (ms.emod 86400000).toNat
  let ymd := civilFromDays days
  let yearStr :=
    if 0 ≤ ymd.1 ∧ ymd.1 ≤ 9999 then padZ 4 ymd.1.toNat
    else (if ymd.1 < 0 then "-" else "+") ++ padZ 6 ymd.1.natAbs
  yearStr ++ "-" ++ padZ 2 ymd.2.1 ++ "-" ++ padZ 2 ymd.2.2 ++ "T" ++
    padZ 2 (msod / 3600000) ++ ":" ++ padZ 2 (msod % 3600000 / 60000) ++ ":" ++
    padZ 2 (msod % 60000 / 1000) ++ "." ++ padZ 3 (msod % 1000) ++ "Z"

/-! ## JS value helpers: truthiness, spread, property access -/

/-- JS truthiness of a value. -/
def truthy : JVal → Bool
  | .vNull => false
  | .vBool b => b
  | .vNum q => decide (q.num ≠ 0)
  | .vNaN => false
  | .vInf _ => true
  | .vStr s => decide (s ≠ "")
  | .vArr _ => true
  | .vObj _ => true

/-- Truthiness of a property read (`undefined` is falsy). -/
def truthyO : Option JVal → Bool
  | some v => truthy v
  | none => false

/-- Own enumerable properties contributed by spreading a value into an
object literal (`{...v}`): an object's fields, a string's or array's
indexed elements, nothing for primitives. -/
def spreadProps : JVal → Obj
  | .vObj fs => fs
  | .vStr s => s.data.enum.map (fun ic => (toString ic.1, JVal.vStr (String.mk [ic.2])))
  | .vArr xs => xs.enum.map (fun ix => (toString ix.1, ix.2))
  | _ => []

/-- Reading a named (non-index) property `v[k]`: throws (`.error`) on
`null`, looks up object fields, spread-style index properties and
`length` on strings and arrays, `undefined` (`none`) otherwise. -/
def jsGetProp (v : JVal) (k : String) : Except Unit (Option JVal) :=
  match v with
  | .vNull => .error ()
  | .vObj fs => .ok (objGet fs k)
  | .vStr s =>
    .ok (if k = "length" then some (JVal.vNum (qOfNat s.data.length))
         else objGet (spreadProps (.vStr s)) k)
  | .vArr xs =>
    .ok (if k = "length" then some (JVal.vNum (qOfNat xs.length))
         else objGet (spreadProps (.vArr xs)) k)
  | _ => .ok none

/-- Own enumerable properties after `ToObject` coercion, as performed by
`Object.assign` on its first argument: throws on `null`, is the identity
on objects, and wraps primitives (whose only own enumerable properties
are a string's indexed characters). -/
def toObjectProps : JVal → Except Unit Obj
  | .vNull => .error ()
  | .vObj fs => .ok fs
  | v => .ok (spreadProps v)

/-! ## The embedded source functions (`src/app.ts`) -/

/-- `src/app.ts` `isRequestLogEntry` (lines 98-102). -/
def isRequestLogEntry (line : String) : Bool :=
  strStartsWith line "START RequestId: " ||
  strStartsWith line "END RequestId: " ||
  strStartsWith line "REPORT RequestId: "

/-- `src/app.ts` `fieldValue` (lines 104-106):
`text.substr(text.indexOf(fieldNameText)+fieldNameText.length, valueLength).trim()`. -/
def fieldValue (text fieldNameText : String) (valueLength : Option Int) : String :=
  jsTrim (jsSubstr text (jsIndexOf text fieldNameText + (fieldNameText.data.length : Int))
    valueLength)

/-- `src/app.ts` `parseReportField` (lines 112-128).  The `.error` cases
model the `TypeError` thrown when the destructured `rawFieldValue` is
`undefined` (a segment with no colon) and `rawFieldValue.split(' ')` is
evaluated. -/
def parseReportField (rawField : String) : Except Unit (String × JVal) :=
  match (jsSplit ':' rawField).map jsTrim with
  | [] => .error ()
  | [_] => .error ()
  | rawFieldName :: rawFieldValue :: _ =>
    let fieldNameNoSpaces := removeSpaces rawFieldName
    let fieldName := lowerFirst fieldNameNoSpaces
    match jsSplit ' ' rawFieldValue with
    | [] => .error ()
    | value :: rest =>
      match rest.head? with
      | some u =>
        if u = "ms" ∨ u = "MB" then .ok (fieldName ++ u, parseFloatJS value)
        else .ok (fieldName, JVal.vStr rawFieldValue)
      | none => .ok (fieldName, JVal.vStr rawFieldValue)

/-- `rawFields.map(rawField => parseReportField(rawField))`, with the
first thrown `TypeError` propagating. -/
def parseReportFields : List String → Except Unit (List (String × JVal))
  | [] => .ok []
  | f :: fs =>
    match parseReportField f with
    | .error e => .error e
    | .ok kv =>
      match parseReportFields fs with
      | .error e => .error e
      | .ok kvs => .ok (kv :: kvs)

/-- `src/app.ts` `lambdaRequestLogData` (lines 130-168).  Returns
`.ok none` for `undefined`, `.error` when a `REPORT` field segment makes
`parseReportField` throw. -/
def lambdaRequestLogData (line : String) : Except Unit (Option Obj) :=
  if isRequestLogEntry line then
    let eventName := jsSubstr line 0 (some (jsIndexOf line " "))
    let requestId := fieldValue line "RequestId:" (some 36)
    let base : Obj := [("lambdaEvent", JVal.vStr eventName),
                       ("lambdaRequestId", JVal.vStr requestId)]
    if eventName = "END" then
      .ok (some (objSet base "lambdaStats" (JVal.vObj [])))
    else if eventName = "START" then
      .ok (some (objSet base "lambdaStats"
        (JVal.vObj [("lambdaVersion", JVal.vStr (fieldValue line "Version:" none))])))
    else if eventName = "REPORT" then
      match parseReportFields
          ((((jsSplit '\t' line).drop 1).map jsTrim).filter (fun s => 0 < s.data.length)) with
      | .error e => .error e
      | .ok fields =>
        .ok (some (objSet base "lambdaStats"
          (JVal.vObj (fields.foldl (fun acc kv => objSet acc kv.1 kv.2) []))))
    else
      .ok (some (objSet base "lambdaStats" (JVal.vObj [])))
  else
    .ok none

/-- `src/app.ts` `parseMessageJson` (lines 170-178). -/
def parseMessageJson (line : String) : JVal :=
  match jsonParse (jsTrim line) with
  | some v => v
  | none => JVal.vObj [("message", JVal.vStr (jsTrim line))]

/-- `src/app.ts` `parseNodeLogFormat` (lines 181-195). -/
def parseNodeLogFormat (logGroup line : String) : Option JVal :=
  let elements := jsSplit '\t' line
  let dateString := elements.headD ""
  let isDate := dateParseValid dateString
  if 4 ≤ elements.length ∧ isDate = true then
    let lambdaRequestId := elements.getD 1 ""
    let level := elements.getD 2 ""
    let message := String.intercalate "\t" (elements.drop 3)
    let structuredLog := parseMessageJson message
    some (JVal.vObj (objSet (objSet (spreadProps structuredLog)
      "lambdaRequestId" (JVal.vStr lambdaRequestId)) "level" (JVal.vStr level)))
  else
    none

/-- `src/app.ts` `parseLambdaLogLine` (lines 198-212). -/
def parseLambdaLogLine (logGroup line : String) : Except Unit JVal :=
  match lambdaRequestLogData line with
  | .error e => .error e
  | .ok (some fields) => .ok (JVal.vObj (objSet fields "message" (JVal.vStr line)))
  | .ok none =>
    match parseNodeLogFormat logGroup line with
    | some nodeLogData => .ok nodeLogData
    | none => .ok (parseMessageJson line)

/-- A `CloudWatchLogsLogEvent` as consumed by `createStructuredLog`:
`id`, ingestion `timestamp` in milliseconds, raw `message`. -/
structure LogEvent where
  id : String
  timestamp : Int
  message : String

/-- The value bound to `'@timestamp'` in `createStructuredLog`:
`structuredLog.timestamp || new Date(logEvent.timestamp).toISOString()`. -/
def atTimestampVal (ts : Option JVal) (ev : LogEvent) : JVal :=
  match ts with
  | some v => if truthy v then v else JVal.vStr (toISOString ev.timestamp)
  | none => JVal.vStr (toISOString ev.timestamp)

/-- One iteration of the `Object.keys(extraFields).reduce` body in
`createStructuredLog` (lines 222-229): if the record holds a truthy value
at the supplemental key, first copy it to `overwrittenFields.<key>`, then
assign the supplemental value. -/
def enrichStep (acc : Obj) (kv : String × JVal) : Obj :=
  match objGet acc kv.1 with
  | some v =>
    if truthy v then objSet (objSet acc ("overwrittenFields." ++ kv.1) v) kv.1 kv.2
    else objSet acc kv.1 kv.2
  | none => objSet acc kv.1 kv.2

/-- The whole enrichment `reduce` of `createStructuredLog`, iterating the
supplemental mapping in key order. -/
def enrichFields (publishable : Obj) (extraFields : Obj) : Obj :=
  extraFields.foldl enrichStep publishable

/-- `src/app.ts` `createStructuredLog` (lines 214-230).  `.error` models
an uncaught `TypeError` escaping the handler (parser throw, or property
access / `Object.assign` on `null`). -/
def createStructuredLog (logGroup : String) (logEvent : LogEvent) (extraFields : Obj) :
    Except Unit Obj :=
  match parseLambdaLogLine logGroup (jsTrim logEvent.message) with
  | .error e => .error e
  | .ok structuredLog =>
    match jsGetProp structuredLog "timestamp" with
    | .error e => .error e
    | .ok ts =>
      match toObjectProps structuredLog with
      | .error e => .error e
      | .ok props =>
        let publishable : Obj :=
          objSet (objSet (objSet props "@timestamp" (atTimestampVal ts logEvent))
            "cloudwatchId" (JVal.vStr logEvent.id)) "cloudwatchLogGroup" (JVal.vStr logGroup)
        .ok (enrichFields publishable extraFields)

/-! ## Basic lemmas about the embedded primitives -/

theorem data_append (a b : String) : (a ++ b).data = a.data ++ b.data := rfl

theorem string_eq_of_data {a b : String} (h : a.data = b.data) : a = b := by
  cases a; cases b; exact congrArg String.mk h

theorem bk_data_head (k : String) :
    ("overwrittenFields." ++ k).data.head? = some 'o' := rfl

theorem bk_ne_of_head {q : String} (h : q.data.head? ≠ some 'o') (k : String) :
    q ≠ "overwrittenFields." ++ k :=
  fun he => h (by rw [he]; exact bk_data_head k)

theorem bk_ne_self (k : String) : "overwrittenFields." ++ k ≠ k := by
  intro he
  have h : ("overwrittenFields." ++ k).data.length = k.data.length :=
    congrArg (fun s => s.data.length) he
  rw [data_append, List.length_append] at h
  have h18 : ("overwrittenFields." : String).data.length = 18 := rfl
  rw [h18] at h
  omega

theorem bk_inj {k1 k2 : String}
    (h : "overwrittenFields." ++ k1 = "overwrittenFields." ++ k2) : k1 = k2 := by
  have hd := congrArg String.data h
  simp only [data_append] at hd
  exact string_eq_of_data (List.append_cancel_left hd)

theorem objGet_objSet_self (o : Obj) (k : String) (v : JVal) :
    objGet (objSet o k v) k = some v := by
  induction o with
  | nil => simp [objSet, objGet]
  | cons kv rest ih =>
    by_cases h : kv.1 = k
    · simp [objSet, objGet, h]
    · simp [objSet, objGet, h, ih]

theorem objGet_objSet_ne (o : Obj) (k q : String) (v : JVal) (h : q ≠ k) :
    objGet (objSet o k v) q = objGet o q := by
  induction o with
  | nil => simp [objSet, objGet, Ne.symm h]
  | cons kv rest ih =>
    by_cases hk : kv.1 = k
    · subst hk
      simp [objSet, objGet, Ne.symm h]
    · simp [objSet, objGet, hk, ih]

/-! ## Lemmas about the enrichment fold -/

theorem enrichStep_get_self (acc : Obj) (k : String) (v : JVal) :
    objGet (enrichStep acc (k, v)) k = some v := by
  unfold enrichStep
  cases h : objGet acc k with
  | none => exact objGet_objSet_self ..
  | some w =>
    by_cases ht : truthy w = true
    · simp only [ht, if_pos]
      exact objGet_objSet_self ..
    · simp only [ht]
      simpa using objGet_objSet_self ..

theorem enrichStep_get_other (acc : Obj) (kv : String × JVal) (q : String)
    (hq : q ≠ kv.1) (hbq : q ≠ "overwrittenFields." ++ kv.1) :
    objGet (enrichStep acc kv) q = objGet acc q := by
  unfold enrichStep
  cases h : objGet acc kv.1 with
  | none => exact objGet_objSet_ne _ _ _ _ hq
  | some w =>
    by_cases ht : truthy w = true
    · simp only [ht, if_pos]
      rw [objGet_objSet_ne _ _ _ _ hq, objGet_objSet_ne _ _ _ _ hbq]
    · simp only [ht]
      simpa using objGet_objSet_ne _ _ _ _ hq

theorem enrichStep_get_bk (acc : Obj) (k : String) (v : JVal) :
    objGet (enrichStep acc (k, v)) ("overwrittenFields." ++ k) =
      (if truthyO (objGet acc k) then objGet acc k
       else objGet acc ("overwrittenFields." ++ k)) := by
  unfold enrichStep
  cases h : objGet acc k with
  | none =>
    simp only [truthyO, if_neg]
    exact objGet_objSet_ne _ _ _ _ (bk_ne_self k)
  | some w =>
    by_cases ht : truthy w = true
    · simp only [truthyO, ht, if_pos]
      rw [objGet_objSet_ne _ _ _ _ (bk_ne_self k), objGet_objSet_self]
    · simp only [truthyO, ht]
      simpa using objGet_objSet_ne _ _ _ _ (bk_ne_self k)

theorem enrich_get_frame (extra : Obj) (base : Obj) (q : String)
    (h : ∀ kv ∈ extra, q ≠ kv.1 ∧ q ≠ "overwrittenFields." ++ kv.1) :
    objGet (enrichFields base extra) q = objGet base q := by
  induction extra generalizing base with
  | nil => rfl
  | cons kv rest ih =>
    have hkv := h kv (by simp)
    calc objGet (enrichFields (enrichStep base kv) rest) q
        = objGet (enrichStep base kv) q := ih _ (fun kv' hm => h kv' (by simp [hm]))
      _ = objGet base q := enrichStep_get_other _ _ _ hkv.1 hkv.2

theorem enrich_get_mem (extra : Obj) (base : Obj) (k : String) (v : JVal)
    (hnd : (extra.map Prod.fst).Nodup)
    (hnbc : ∀ kv1 ∈ extra, ∀ kv2 ∈ extra, kv2.1 ≠ "overwrittenFields." ++ kv1.1)
    (hmem : (k, v) ∈ extra) :
    objGet (enrichFields base extra) k = some v := by
  induction extra generalizing base with
  | nil => cases hmem
  | cons kv rest ih =>
    rcases List.mem_cons.mp hmem with heq | hrest
    · subst heq
      have hframe : ∀ kv' ∈ rest, k ≠ kv'.1 ∧ k ≠ "overwrittenFields." ++ kv'.1 := by
        intro kv' hm
        constructor
        · intro he
          have : k ∈ rest.map Prod.fst := he ▸ List.mem_map_of_mem Prod.fst hm
          exact (List.nodup_cons.mp hnd).1 this
        · exact hnbc kv' (by simp [hm]) (k, v) (by simp)
      calc objGet (enrichFields (enrichStep base (k, v)) rest) k
          = objGet (enrichStep base (k, v)) k := enrich_get_frame _ _ _ hframe
        _ = some v := enrichStep_get_self ..
    · exact ih _ ((List.nodup_cons.mp hnd).2)
        (fun kv1 h1 kv2 h2 => hnbc kv1 (by simp [h1]) kv2 (by simp [h2])) hrest

theorem enrich_get_bk (extra : Obj) (base : Obj) (k : String) (v : JVal)
    (hnd : (extra.map Prod.fst).Nodup)
    (hnbc : ∀ kv1 ∈ extra, ∀ kv2 ∈ extra, kv2.1 ≠ "overwrittenFields." ++ kv1.1)
    (hmem : (k, v) ∈ extra) :
    objGet (enrichFields base extra) ("overwrittenFields." ++ k) =
      (if truthyO (objGet base k) then objGet base k
       else objGet base ("overwrittenFields." ++ k)) := by
  induction extra generalizing base with
  | nil => cases hmem
  | cons kv rest ih =>
    rcases List.mem_cons.mp hmem with heq | hrest
    · subst heq
      have hframe : ∀ kv' ∈ rest,
          "overwrittenFields." ++ k ≠ kv'.1 ∧
          "overwrittenFields." ++ k ≠ "overwrittenFields." ++ kv'.1 := by
        intro kv' hm
        constructor
        · exact fun he => hnbc (k, v) (by simp) kv' (by simp [hm]) he.symm
        · intro he
          have hk : k = kv'.1 := bk_inj he
          have : k ∈ rest.map Prod.fst := hk ▸ List.mem_map_of_mem Prod.fst hm
          exact (List.nodup_cons.mp hnd).1 this
      calc objGet (enrichFields (enrichStep base (k, v)) rest) ("overwrittenFields." ++ k)
          = objGet (enrichStep base (k, v)) ("overwrittenFields." ++ k) :=
            enrich_get_frame _ _ _ hframe
        _ = _ := enrichStep_get_bk ..
    · have hk_ne : k ≠ kv.1 := by
        intro he
        have : kv.1 ∈ rest.map Prod.fst := he ▸ List.mem_map_of_mem Prod.fst hrest
        exact (List.nodup_cons.mp hnd).1 this
      have hstep_k : objGet (enrichStep base kv) k = objGet base k :=
        enrichStep_get_other _ _ _ hk_ne
          (hnbc kv (by simp) (k, v) (by simp [hrest]))
      have hstep_bk : objGet (enrichStep base kv) ("overwrittenFields." ++ k) =
          objGet base ("overwrittenFields." ++ k) :=
        enrichStep_get_other _ _ _
          (fun he => hnbc (k, v) (by simp [hrest]) kv (by simp) he.symm)
          (fun he => hk_ne (bk_inj he))
      calc objGet (enrichFields (enrichStep base kv) rest) ("overwrittenFields." ++ k)
          = (if truthyO (objGet (enrichStep base kv) k) then objGet (enrichStep base kv) k
             else objGet (enrichStep base kv) ("overwrittenFields." ++ k)) :=
            ih _ ((List.nodup_cons.mp hnd).2)
              (fun kv1 h1 kv2 h2 => hnbc kv1 (by simp [h1]) kv2 (by simp [h2])) hrest
        _ = _ := by rw [hstep_k, hstep_bk]

/-! ## Structure of successful `createStructuredLog` runs -/

theorem createStructuredLog_ok {g : String} {ev : LogEvent} {extra : Obj} {r : Obj}
    (h : createStructuredLog g ev extra = .ok r) :
    ∃ sl ts props,
      parseLambdaLogLine g (jsTrim ev.message) = .ok sl ∧
      jsGetProp sl "timestamp" = .ok ts ∧
      toObjectProps sl = .ok props ∧
      r = enrichFields
        (objSet (objSet (objSet props "@timestamp" (atTimestampVal ts ev))
          "cloudwatchId" (JVal.vStr ev.id)) "cloudwatchLogGroup" (JVal.vStr g)) extra := by
  cases hp : parseLambdaLogLine g (jsTrim ev.message) with
  | error e =>
    simp only [createStructuredLog, hp] at h
    exact Except.noConfusion h
  | ok sl =>
    cases hts : jsGetProp sl "timestamp" with
    | error e =>
      simp only [createStructuredLog, hp, hts] at h
      exact Except.noConfusion h
    | ok ts =>
      cases hpr : toObjectProps sl with
      | error e =>
        simp only [createStructuredLog, hp, hts, hpr] at h
        exact Except.noConfusion h
      | ok props =>
        simp only [createStructuredLog, hp, hts, hpr, Except.ok.injEq] at h
        exact ⟨sl, ts, props, rfl, hts, hpr, h.symm⟩

/-! ## A valid leading date token excludes the lifecycle parser -/

theorem head_of_isPrefixOf {p l : List Char} {c : Char}
    (h : p.isPrefixOf l = true) (hc : p.head? = some c) : l.head? = some c := by
  cases p with
  | nil => cases hc
  | cons a as =>
    cases l with
    | nil => simp [List.isPrefixOf] at h
    | cons b bs =>
      simp only [List.isPrefixOf, Bool.and_eq_true, beq_iff_eq] at h
      simp only [List.head?] at hc ⊢
      rw [← h.1]; exact hc

theorem splitCh_ne_nil (sep : Char) (l : List Char) : splitCh sep l ≠ [] := by
  cases l with
  | nil => simp [splitCh]
  | cons c cs =>
    unfold splitCh
    cases splitCh sep cs with
    | nil => simp
    | cons h t =>
      by_cases hc : c = sep <;> simp [hc]

theorem splitCh_cons_head {sep c : Char} (cs : List Char) (h : ¬c = sep) :
    ∃ h' t', splitCh sep (c :: cs) = (c :: h') :: t' := by
  unfold splitCh
  cases he : splitCh sep cs with
  | nil => exact absurd he (splitCh_ne_nil sep cs)
  | cons hh tt => exact ⟨hh, tt, by simp [h]⟩

theorem dateValid_head_digit {l : List Char} (h : dateValidCh l = true) :
    ∃ c cs, l = c :: cs ∧ c.isDigit = true := by
  match l, h with
  | c1 :: c2 :: c3 :: c4 :: rest, h =>
    simp only [dateValidCh, Bool.and_eq_true] at h
    exact ⟨c1, c2 :: c3 :: c4 :: rest, rfl, h.1.1.1.1⟩

/-- If the first tab-separated segment of a line is a valid date token,
the line is not a lambda lifecycle line. -/
theorem not_request_of_date (line : String)
    (h : dateParseValid ((jsSplit '\t' line).headD "") = true) :
    isRequestLogEntry line = false := by
  cases hb : isRequestLogEntry line with
  | false => rfl
  | true =>
    exfalso
    have hhead : ∃ c, line.data.head? = some c ∧ (c = 'S' ∨ c = 'E' ∨ c = 'R') := by
      unfold isRequestLogEntry strStartsWith at hb
      simp only [Bool.or_eq_true] at hb
      rcases hb with (h1 | h2) | h3
      · exact ⟨'S', head_of_isPrefixOf h1 rfl, Or.inl rfl⟩
      · exact ⟨'E', head_of_isPrefixOf h2 rfl, Or.inr (Or.inl rfl)⟩
      · exact ⟨'R', head_of_isPrefixOf h3 rfl, Or.inr (Or.inr rfl)⟩
    obtain ⟨c, hc, hcase⟩ := hhead
    obtain ⟨cs, hcs⟩ : ∃ cs, line.data = c :: cs := by
      cases hd : line.data with
      | nil => rw [hd] at hc; cases hc
      | cons x xs =>
        rw [hd] at hc
        simp only [List.head?, Option.some.injEq] at hc
        exact ⟨xs, by rw [hc]⟩
    have hctab : ¬c = '\t' := by
      rcases hcase with rfl | rfl | rfl <;> decide
    obtain ⟨h', t', hsplit⟩ := splitCh_cons_head cs hctab
    have hfirst : (jsSplit '\t' line).headD "" = String.mk (c :: h') := by
      unfold jsSplit
      rw [hcs, hsplit]
      rfl
    rw [hfirst] at h
    unfold dateParseValid at h
    obtain ⟨c0, cs0, heq, hdig⟩ := dateValid_head_digit h
    have hc0 : c0 = c := by
      have := congrArg List.head? heq
      simp only [List.head?, Option.some.injEq] at this
      exact this.symm
    rw [hc0] at hdig
    rcases hcase with rfl | rfl | rfl <;> simp [Char.isDigit] at hdig

/-! ## Small value lemmas -/

theorem truthy_ne_empty {v : JVal} (h : truthy v = true) : v ≠ JVal.vStr "" := by
  intro he
  rw [he] at h
  simp [truthy] at h

theorem append_singleZ_ne (a : String) : a ++ "Z" ≠ "" := by
  intro h
  have hl : (a ++ "Z").data.length = ("" : String).data.length :=
    congrArg (fun s => s.data.length) h
  rw [data_append, List.length_append] at hl
  have h1 : ("Z" : String).data.length = 1 := rfl
  have h0 : ("" : String).data.length = 0 := rfl
  rw [h1, h0] at hl
  omega

theorem toISOString_ne_empty (ms : Int) : toISOString ms ≠ "" := by
  unfold toISOString
  exact append_singleZ_ne _

/-- Shared general fact: a line whose tab-split has at least four segments
and whose first segment is a valid date token is handled by
`parseNodeLogFormat` inside `parseLambdaLogLine`. -/
theorem parseLambdaLogLine_tab (g line : String)
    (hlen : 4 ≤ (jsSplit '\t' line).length)
    (hdate : dateParseValid ((jsSplit '\t' line).headD "") = true) :
    parseLambdaLogLine g line =
      .ok (JVal.vObj (objSet (objSet
        (spreadProps (parseMessageJson
          (String.intercalate "\t" ((jsSplit '\t' line).drop 3))))
        "lambdaRequestId" (JVal.vStr ((jsSplit '\t' line).getD 1 "")))
        "level" (JVal.vStr ((jsSplit '\t' line).getD 2 "")))) := by
  have hreq : isRequestLogEntry line = false := not_request_of_date line hdate
  have hl : lambdaRequestLogData line = .ok none := by
    simp [lambdaRequestLogData, hreq]
  have hdate' : dateParseValid ((jsSplit '\t' line).head?.getD "") = true := by
    rw [← List.headD_eq_head?]; exact hdate
  have hn : parseNodeLogFormat g line =
      some (JVal.vObj (objSet (objSet
        (spreadProps (parseMessageJson
          (String.intercalate "\t" ((jsSplit '\t' line).drop 3))))
        "lambdaRequestId" (JVal.vStr ((jsSplit '\t' line).getD 1 "")))
        "level" (JVal.vStr ((jsSplit '\t' line).getD 2 "")))) := by
    simp [parseNodeLogFormat, hlen, hdate, hdate']
  simp [parseLambdaLogLine, hl, hn]

/-! ## The claims -/

/-- C1: the claim states that parsing any raw log line and building its
publishable record always succeeds, degrading to a fallback record instead
of aborting the batch.  The code violates this: on a `REPORT` lifecycle
line containing a tab segment with no colon, `parseReportField`
destructures `rawFieldValue` as `undefined` and then throws a `TypeError`
from `rawFieldValue.split(' ')`, which propagates out of
`createStructuredLog` and aborts the whole batch.  This theorem evaluates
the embedded code at that failing input. -/
theorem c1_report_field_crash :
    createStructuredLog "group" ⟨"id1", 0, "REPORT RequestId: abc\tnocolon"⟩ [] =
      .error () ∧
    parseLambdaLogLine "group" "REPORT RequestId: abc\tnocolon" = .error () :=
  ⟨rfl, rfl⟩

/-- C2 (counterexample): enrichment does silently discard a pre-existing
value when that value is falsy.  A record holding `env = ""` enriched with
`env = "staging"` loses the empty string: no `overwrittenFields.env` entry
is created. -/
theorem c2_falsy_value_discarded :
    objGet [("env", JVal.vStr "")] "env" = some (JVal.vStr "") ∧
    enrichFields [("env", JVal.vStr "")] [("env", JVal.vStr "staging")] =
      [("env", JVal.vStr "staging")] ∧
    objGet (enrichFields [("env", JVal.vStr "")] [("env", JVal.vStr "staging")])
      "overwrittenFields.env" = none :=
  ⟨rfl, rfl, rfl⟩

/-- C2 (amended): for every record and supplemental mapping with distinct
keys none of which is itself an `overwrittenFields.*` bookkeeping key, and
for each supplemental key at which the record holds a *truthy* value (in
particular any non-empty string such as `"prod"`), the pre-existing value
is relocated to `overwrittenFields.<key>` and the supplemental value
overwrites the key. -/
theorem c2_truthy_value_relocated (record extra : Obj) (k : String) (v : JVal)
    (hnd : (extra.map Prod.fst).Nodup)
    (hnbc : ∀ kv1 ∈ extra, ∀ kv2 ∈ extra, kv2.1 ≠ "overwrittenFields." ++ kv1.1)
    (hmem : (k, v) ∈ extra)
    (htruthy : truthyO (objGet record k) = true) :
    objGet (enrichFields record extra) ("overwrittenFields." ++ k) = objGet record k ∧
    objGet (enrichFields record extra) k = some v := by
  refine ⟨?_, enrich_get_mem extra record k v hnd hnbc hmem⟩
  rw [enrich_get_bk extra record k v hnd hnbc hmem, if_pos htruthy]

theorem c2_witness :
    objGet (enrichFields [("env", JVal.vStr "prod")] [("env", JVal.vStr "staging")])
      ("overwrittenFields." ++ "env") = objGet [("env", JVal.vStr "prod")] "env" ∧
    objGet (enrichFields [("env", JVal.vStr "prod")] [("env", JVal.vStr "staging")])
      "env" = some (JVal.vStr "staging") :=
  c2_truthy_value_relocated [("env", JVal.vStr "prod")] [("env", JVal.vStr "staging")]
    "env" (JVal.vStr "staging") (by decide)
    (by intro kv1 h1 kv2 h2; simp at h1 h2; rw [h1, h2]; decide)
    (List.Mem.head _) (by decide)

/-- C3 (counterexample): `@timestamp` is *not* non-empty regardless of the
supplemental mapping.  The enrichment loop applies supplemental keys after
the reserved fields are attached, so a supplemental mapping binding
`@timestamp` to the empty string produces a record whose `@timestamp` is
`""`. -/
theorem c3_empty_timestamp :
    createStructuredLog "g" ⟨"id1", 0, "hello"⟩ [("@timestamp", JVal.vStr "")] =
      .ok [("message", JVal.vStr "hello"), ("@timestamp", JVal.vStr ""),
           ("cloudwatchId", JVal.vStr "id1"), ("cloudwatchLogGroup", JVal.vStr "g"),
           ("overwrittenFields.@timestamp", JVal.vStr "1970-01-01T00:00:00.000Z")] ∧
    objGet [("message", JVal.vStr "hello"), ("@timestamp", JVal.vStr ""),
            ("cloudwatchId", JVal.vStr "id1"), ("cloudwatchLogGroup", JVal.vStr "g"),
            ("overwrittenFields.@timestamp", JVal.vStr "1970-01-01T00:00:00.000Z")]
      "@timestamp" = some (JVal.vStr "") :=
  ⟨rfl, rfl⟩

/-- C3 (amended): every record successfully built by `createStructuredLog`
has a non-empty `@timestamp`, provided the supplemental mapping does not
itself bind `@timestamp`.  If the parser output holds a *truthy*
`timestamp` value, that value is promoted; otherwise (absent or falsy,
e.g. the empty string) the ingestion time rendered by `toISOString` is
used. -/
theorem c3_timestamp_nonempty (g : String) (ev : LogEvent) (extra : Obj) (r : Obj)
    (h : createStructuredLog g ev extra = .ok r)
    (hx : ∀ kv ∈ extra, kv.1 ≠ "@timestamp") :
    ∃ sl v,
      parseLambdaLogLine g (jsTrim ev.message) = .ok sl ∧
      objGet r "@timestamp" = some v ∧
      v ≠ JVal.vStr "" ∧
      (∀ tv, jsGetProp sl "timestamp" = .ok (some tv) → truthy tv = true → v = tv) ∧
      (∀ tv, jsGetProp sl "timestamp" = .ok (some tv) → truthy tv = false →
        v = JVal.vStr (toISOString ev.timestamp)) ∧
      (jsGetProp sl "timestamp" = .ok none → v = JVal.vStr (toISOString ev.timestamp)) := by
  obtain ⟨sl, ts, props, hp, hts, hpr, hr⟩ := createStructuredLog_ok h
  refine ⟨sl, atTimestampVal ts ev, hp, ?_, ?_, ?_, ?_, ?_⟩
  · rw [hr]
    rw [enrich_get_frame extra _ _ (fun kv hm =>
      ⟨fun he => hx kv hm (he.symm), bk_ne_of_head (by decide) kv.1⟩)]
    rw [objGet_objSet_ne _ _ _ _ (by decide), objGet_objSet_ne _ _ _ _ (by decide),
      objGet_objSet_self]
  · cases ts with
    | none =>
      simp only [atTimestampVal]
      intro he
      exact toISOString_ne_empty ev.timestamp (JVal.vStr.injEq .. ▸ he)
    | some tv =>
      simp only [atTimestampVal]
      by_cases ht : truthy tv = true
      · rw [if_pos ht]
        exact truthy_ne_empty ht
      · rw [if_neg ht]
        intro he
        exact toISOString_ne_empty ev.timestamp (JVal.vStr.injEq .. ▸ he)
  · intro tv htv htr
    rw [hts] at htv
    have htv' : ts = some tv := by injection htv
    rw [htv']
    simp only [atTimestampVal]
    rw [if_pos htr]
  · intro tv htv htr
    rw [hts] at htv
    have htv' : ts = some tv := by injection htv
    rw [htv']
    simp only [atTimestampVal]
    rw [if_neg (by rw [htr]; exact Bool.false_ne_true)]
  · intro htv
    rw [hts] at htv
    have htv' : ts = none := by injection htv
    rw [htv']
    simp only [atTimestampVal]

theorem c3_witness :
    ∃ sl v,
      parseLambdaLogLine "g" (jsTrim ("hello" : String)) = .ok sl ∧
      objGet [("message", JVal.vStr "hello"),
              ("@timestamp", JVal.vStr "1970-01-01T00:00:00.000Z"),
              ("cloudwatchId", JVal.vStr "id1"), ("cloudwatchLogGroup", JVal.vStr "g")]
        "@timestamp" = some v ∧
      v ≠ JVal.vStr "" ∧
      (∀ tv, jsGetProp sl "timestamp" = .ok (some tv) → truthy tv = true → v = tv) ∧
      (∀ tv, jsGetProp sl "timestamp" = .ok (some tv) → truthy tv = false →
        v = JVal.vStr (toISOString (0 : Int))) ∧
      (jsGetProp sl "timestamp" = .ok none → v = JVal.vStr (toISOString (0 : Int))) :=
  c3_timestamp_nonempty "g" ⟨"id1", 0, "hello"⟩ []
    [("message", JVal.vStr "hello"),
     ("@timestamp", JVal.vStr "1970-01-01T00:00:00.000Z"),
     ("cloudwatchId", JVal.vStr "id1"), ("cloudwatchLogGroup", JVal.vStr "g")]
    rfl (fun kv hm => absurd hm (List.not_mem_nil kv))

/-- C4: the claim (taken from the spec's testable property) expects the
full 36-character request identifier `123e4567-e89b-12d3-a456-426614174000`.
The code is wrong: `fieldValue(line, 'RequestId:', 36)` starts its
36-character window at the space *after* the colon, so after trimming only
35 characters of the identifier remain and the trailing `0` is lost.  The
theorem evaluates the embedded parser at the claim's input. -/
theorem c4_request_id_truncated :
    parseLambdaLogLine "g"
        "START RequestId: 123e4567-e89b-12d3-a456-426614174000 Version: $LATEST" =
      .ok (JVal.vObj
        [("lambdaEvent", JVal.vStr "START"),
         ("lambdaRequestId", JVal.vStr "123e4567-e89b-12d3-a456-42661417400"),
         ("lambdaStats", JVal.vObj [("lambdaVersion", JVal.vStr "$LATEST")]),
         ("message", JVal.vStr
           "START RequestId: 123e4567-e89b-12d3-a456-426614174000 Version: $LATEST")]) ∧
    ("123e4567-e89b-12d3-a456-42661417400" : String) ≠
      "123e4567-e89b-12d3-a456-426614174000" :=
  ⟨rfl, by decide⟩

/-- C5: `parseReportField` normalizes the field name by removing internal
spaces and lower-casing the first character; on a `Name: value unit`
segment whose unit token is `ms` or `MB` it parses the numeric portion
with `parseFloat` and suffixes the name with the unit, otherwise it keeps
the raw trimmed value as a string under the base name.  In particular the
claim's `REPORT` line yields the numbers `durationms = 123.45` and
`memorySizeMB = 128`. -/
theorem c5_report_field_normalization :
    (∀ s n v num u,
      jsSplit ':' s = [n, v] →
      jsSplit ' ' (jsTrim v) = [num, u] →
      parseReportField s =
        .ok (if u = "ms" ∨ u = "MB"
             then (lowerFirst (removeSpaces (jsTrim n)) ++ u, parseFloatJS num)
             else (lowerFirst (removeSpaces (jsTrim n)), JVal.vStr (jsTrim v)))) ∧
    (∀ s n v num,
      jsSplit ':' s = [n, v] →
      jsSplit ' ' (jsTrim v) = [num] →
      parseReportField s =
        .ok (lowerFirst (removeSpaces (jsTrim n)), JVal.vStr (jsTrim v))) ∧
    parseLambdaLogLine "g" "REPORT RequestId: abc\tDuration: 123.45 ms\tMemory Size: 128 MB" =
      .ok (JVal.vObj
        [("lambdaEvent", JVal.vStr "REPORT"),
         ("lambdaRequestId", JVal.vStr "abc\tDuration: 123.45 ms\tMemory Size"),
         ("lambdaStats", JVal.vObj [("durationms", JVal.vNum (mkQ 12345 100)),
                                    ("memorySizeMB", JVal.vNum (mkQ 128 1))]),
         ("message", JVal.vStr
           "REPORT RequestId: abc\tDuration: 123.45 ms\tMemory Size: 128 MB")]) := by
  refine ⟨?_, ?_, rfl⟩
  · intro s n v num u h1 h2
    by_cases hu : u = "ms" ∨ u = "MB"
    · simp [parseReportField, h1, h2, hu]
    · simp [parseReportField, h1, h2, hu]
  · intro s n v num h1 h2
    simp [parseReportField, h1, h2]

theorem atTimestampVal_ne_empty (ts : Option JVal) (ev : LogEvent) :
    atTimestampVal ts ev ≠ JVal.vStr "" := by
  cases ts with
  | none =>
    simp only [atTimestampVal]
    intro he
    exact toISOString_ne_empty ev.timestamp (JVal.vStr.injEq .. ▸ he)
  | some tv =>
    simp only [atTimestampVal]
    by_cases ht : truthy tv = true
    · rw [if_pos ht]
      exact truthy_ne_empty ht
    · rw [if_neg ht]
      intro he
      exact toISOString_ne_empty ev.timestamp (JVal.vStr.injEq .. ▸ he)

theorem c5_witness :
    parseReportField "Duration: 123.45 ms" =
      .ok (if ("ms" : String) = "ms" ∨ ("ms" : String) = "MB"
           then (lowerFirst (removeSpaces (jsTrim "Duration")) ++ "ms",
                 parseFloatJS "123.45")
           else (lowerFirst (removeSpaces (jsTrim "Duration")),
                 JVal.vStr (jsTrim " 123.45 ms"))) :=
  c5_report_field_normalization.1 "Duration: 123.45 ms" "Duration" " 123.45 ms"
    "123.45" "ms" rfl rfl

/-- C6: a line splitting on tab into at least four segments whose first
segment is a valid date token is handled by the tab-delimited structured
parser: the tab-rejoined message portion is parsed by `parseMessageJson`
(JSON if possible, else wrapped as a message record) and merged with
`lambdaRequestId` and `level` taken from segments two and three.  In
particular the claim's concrete line yields `a = 1`,
`lambdaRequestId = "req-1"`, `level = "INFO"`. -/
theorem c6_tab_delimited_line :
    (∀ g line,
      4 ≤ (jsSplit '\t' line).length →
      dateParseValid ((jsSplit '\t' line).headD "") = true →
      parseLambdaLogLine g line =
        .ok (JVal.vObj (objSet (objSet
          (spreadProps (parseMessageJson
            (String.intercalate "\t" ((jsSplit '\t' line).drop 3))))
          "lambdaRequestId" (JVal.vStr ((jsSplit '\t' line).getD 1 "")))
          "level" (JVal.vStr ((jsSplit '\t' line).getD 2 ""))))) ∧
    parseLambdaLogLine "g" "2023-01-01T00:00:00Z\treq-1\tINFO\t\x7b\"a\":1\x7d" =
      .ok (JVal.vObj [("a", JVal.vNum (mkQ 1 1)),
                      ("lambdaRequestId", JVal.vStr "req-1"),
                      ("level", JVal.vStr "INFO")]) :=
  ⟨parseLambdaLogLine_tab, rfl⟩

theorem c6_witness :
    parseLambdaLogLine "g2" "2023-05-17T10:00:00.000Z\trid\tDEBUG\tplain payload" =
      .ok (JVal.vObj (objSet (objSet
        (spreadProps (parseMessageJson
          (String.intercalate "\t"
            ((jsSplit '\t' "2023-05-17T10:00:00.000Z\trid\tDEBUG\tplain payload").drop 3))))
        "lambdaRequestId"
        (JVal.vStr ((jsSplit '\t' "2023-05-17T10:00:00.000Z\trid\tDEBUG\tplain payload").getD 1 "")))
        "level"
        (JVal.vStr ((jsSplit '\t' "2023-05-17T10:00:00.000Z\trid\tDEBUG\tplain payload").getD 2 "")))) :=
  c6_tab_delimited_line.1 "g2" "2023-05-17T10:00:00.000Z\trid\tDEBUG\tplain payload"
    (by decide) (by decide)

/-- C7 (counterexample): the claim quantifies over every supplemental
mapping, but a supplemental mapping binding `cloudwatchId` overwrites the
source event id: the built record carries `cloudwatchId = "other"` instead
of the event id `"id1"`. -/
theorem c7_reserved_key_overwritten :
    createStructuredLog "g" ⟨"id1", 0, "hello"⟩ [("cloudwatchId", JVal.vStr "other")] =
      .ok [("message", JVal.vStr "hello"),
           ("@timestamp", JVal.vStr "1970-01-01T00:00:00.000Z"),
           ("cloudwatchId", JVal.vStr "other"), ("cloudwatchLogGroup", JVal.vStr "g"),
           ("overwrittenFields.cloudwatchId", JVal.vStr "id1")] ∧
    objGet [("message", JVal.vStr "hello"),
            ("@timestamp", JVal.vStr "1970-01-01T00:00:00.000Z"),
            ("cloudwatchId", JVal.vStr "other"), ("cloudwatchLogGroup", JVal.vStr "g"),
            ("overwrittenFields.cloudwatchId", JVal.vStr "id1")]
      "cloudwatchId" = some (JVal.vStr "other") ∧
    JVal.vStr "other" ≠ JVal.vStr "id1" :=
  ⟨rfl, rfl, by intro he; injection he with h; exact absurd h (by decide)⟩

/-- C7 (amended): every record successfully built by `createStructuredLog`
from a supplemental mapping that does not rebind the reserved keys carries
a non-empty `@timestamp`, `cloudwatchId` equal to the source event id,
`cloudwatchLogGroup` equal to the source name, and a `message` field that
agrees with the parser output (so `message` is present exactly unless the
parser's own structured output dropped it). -/
theorem c7_reserved_fields (g : String) (ev : LogEvent) (extra : Obj) (r : Obj)
    (h : createStructuredLog g ev extra = .ok r)
    (hx : ∀ kv ∈ extra, kv.1 ≠ "@timestamp" ∧ kv.1 ≠ "cloudwatchId" ∧
      kv.1 ≠ "cloudwatchLogGroup" ∧ kv.1 ≠ "message") :
    (∃ v, objGet r "@timestamp" = some v ∧ v ≠ JVal.vStr "") ∧
    objGet r "cloudwatchId" = some (JVal.vStr ev.id) ∧
    objGet r "cloudwatchLogGroup" = some (JVal.vStr g) ∧
    (∀ sl props, parseLambdaLogLine g (jsTrim ev.message) = .ok sl →
      toObjectProps sl = .ok props → objGet r "message" = objGet props "message") := by
  obtain ⟨sl, ts, props, hp, hts, hpr, hr⟩ := createStructuredLog_ok h
  subst hr
  refine ⟨⟨atTimestampVal ts ev, ?_, atTimestampVal_ne_empty ts ev⟩, ?_, ?_, ?_⟩
  · rw [enrich_get_frame extra _ _ (fun kv hm =>
      ⟨fun he => (hx kv hm).1 he.symm, bk_ne_of_head (by decide) kv.1⟩)]
    rw [objGet_objSet_ne _ _ _ _ (by decide), objGet_objSet_ne _ _ _ _ (by decide),
      objGet_objSet_self]
  · rw [enrich_get_frame extra _ _ (fun kv hm =>
      ⟨fun he => (hx kv hm).2.1 he.symm, bk_ne_of_head (by decide) kv.1⟩)]
    rw [objGet_objSet_ne _ _ _ _ (by decide), objGet_objSet_self]
  · rw [enrich_get_frame extra _ _ (fun kv hm =>
      ⟨fun he => (hx kv hm).2.2.1 he.symm, bk_ne_of_head (by decide) kv.1⟩)]
    rw [objGet_objSet_self]
  · intro sl' props' hp' hpr'
    rw [hp] at hp'
    have hsl : sl = sl' := by injection hp'
    subst hsl
    rw [hpr] at hpr'
    have hps : props = props' := by injection hpr'
    subst hps
    rw [enrich_get_frame extra _ _ (fun kv hm =>
      ⟨fun he => (hx kv hm).2.2.2 he.symm, bk_ne_of_head (by decide) kv.1⟩)]
    rw [objGet_objSet_ne _ _ _ _ (by decide), objGet_objSet_ne _ _ _ _ (by decide),
      objGet_objSet_ne _ _ _ _ (by decide)]

theorem c7_witness :
    objGet [("message", JVal.vStr "hello"),
            ("@timestamp", JVal.vStr "1970-01-01T00:00:00.000Z"),
            ("cloudwatchId", JVal.vStr "id1"), ("cloudwatchLogGroup", JVal.vStr "g"),
            ("env", JVal.vStr "prod")] "cloudwatchId" = some (JVal.vStr "id1") :=
  (c7_reserved_fields "g" ⟨"id1", 0, "hello"⟩ [("env", JVal.vStr "prod")]
    [("message", JVal.vStr "hello"),
     ("@timestamp", JVal.vStr "1970-01-01T00:00:00.000Z"),
     ("cloudwatchId", JVal.vStr "id1"), ("cloudwatchLogGroup", JVal.vStr "g"),
     ("env", JVal.vStr "prod")] rfl (by decide)).2.1

/-- C8 (counterexample): when a supplemental key is itself an
`overwrittenFields.*` bookkeeping key, the order of supplemental-key
application does change the final record beyond mere bookkeeping, and a
bookkeeping entry can hold a value that is not the pre-enrichment value of
its key.  The two application orders of the same mapping give
`overwrittenFields.env = "boo"` versus `"prod"`, and the first order also
creates `overwrittenFields.overwrittenFields.env = "prod"` although the
record held no value at `overwrittenFields.env` before enrichment. -/
theorem c8_order_matters :
    [(("env" : String), JVal.vStr "staging"), ("overwrittenFields.env", JVal.vStr "boo")].Perm
      [("overwrittenFields.env", JVal.vStr "boo"), ("env", JVal.vStr "staging")] ∧
    objGet (enrichFields [("env", JVal.vStr "prod")]
      [("env", JVal.vStr "staging"), ("overwrittenFields.env", JVal.vStr "boo")])
      "overwrittenFields.env" = some (JVal.vStr "boo") ∧
    objGet (enrichFields [("env", JVal.vStr "prod")]
      [("overwrittenFields.env", JVal.vStr "boo"), ("env", JVal.vStr "staging")])
      "overwrittenFields.env" = some (JVal.vStr "prod") ∧
    objGet (enrichFields [("env", JVal.vStr "prod")]
      [("env", JVal.vStr "staging"), ("overwrittenFields.env", JVal.vStr "boo")])
      "overwrittenFields.overwrittenFields.env" = some (JVal.vStr "prod") ∧
    objGet [("env", JVal.vStr "prod")] "overwrittenFields.env" = none :=
  ⟨List.Perm.swap ("overwrittenFields.env", JVal.vStr "boo")
    ("env", JVal.vStr "staging") [], rfl, rfl, rfl, rfl⟩

/-- C8 (amended): provided the supplemental mapping has distinct keys and
no supplemental key is the `overwrittenFields.*` bookkeeping key of
another supplemental key, the enriched record is extensionally the same
whatever the order in which the supplemental keys are applied, and every
bookkeeping entry written for a truthy pre-existing value holds the
pre-enrichment value of its key. -/
theorem c8_order_independent (base e1 e2 : Obj)
    (hperm : e1.Perm e2)
    (hnd : (e1.map Prod.fst).Nodup)
    (hnbc : ∀ kv1 ∈ e1, ∀ kv2 ∈ e1, kv2.1 ≠ "overwrittenFields." ++ kv1.1) :
    (∀ q, objGet (enrichFields base e1) q = objGet (enrichFields base e2) q) ∧
    (∀ k v, (k, v) ∈ e1 → truthyO (objGet base k) = true →
      objGet (enrichFields base e1) ("overwrittenFields." ++ k) = objGet base k) := by
  have hnd2 : (e2.map Prod.fst).Nodup := ((hperm.map Prod.fst).nodup_iff).mp hnd
  have hnbc2 : ∀ kv1 ∈ e2, ∀ kv2 ∈ e2, kv2.1 ≠ "overwrittenFields." ++ kv1.1 :=
    fun kv1 h1 kv2 h2 => hnbc kv1 (hperm.mem_iff.mpr h1) kv2 (hperm.mem_iff.mpr h2)
  constructor
  · intro q
    by_cases hqk : ∃ v, (q, v) ∈ e1
    · obtain ⟨v, hv⟩ := hqk
      rw [enrich_get_mem e1 base q v hnd hnbc hv,
          enrich_get_mem e2 base q v hnd2 hnbc2 (hperm.mem_iff.mp hv)]
    · by_cases hbk : ∃ k v, (k, v) ∈ e1 ∧ q = "overwrittenFields." ++ k
      · obtain ⟨k, v, hkv, hq⟩ := hbk
        subst hq
        rw [enrich_get_bk e1 base k v hnd hnbc hkv,
            enrich_get_bk e2 base k v hnd2 hnbc2 (hperm.mem_iff.mp hkv)]
      · have hc1 : ∀ kv ∈ e1, q ≠ kv.1 ∧ q ≠ "overwrittenFields." ++ kv.1 := by
          intro kv hm
          have hmm : (kv.1, kv.2) ∈ e1 := by simpa using hm
          exact ⟨fun he => hqk ⟨kv.2, he.symm ▸ hmm⟩,
                 fun he => hbk ⟨kv.1, kv.2, hmm, he⟩⟩
        have hc2 : ∀ kv ∈ e2, q ≠ kv.1 ∧ q ≠ "overwrittenFields." ++ kv.1 :=
          fun kv hm => hc1 kv (hperm.mem_iff.mpr hm)
        rw [enrich_get_frame e1 base q hc1, enrich_get_frame e2 base q hc2]
  · intro k v hkv ht
    rw [enrich_get_bk e1 base k v hnd hnbc hkv, if_pos ht]

theorem c8_witness :
    objGet (enrichFields [("a", JVal.vStr "x")]
      [("a", JVal.vStr "1"), ("b", JVal.vStr "2")]) "a" =
    objGet (enrichFields [("a", JVal.vStr "x")]
      [("b", JVal.vStr "2"), ("a", JVal.vStr "1")]) "a" :=
  (c8_order_independent [("a", JVal.vStr "x")]
    [("a", JVal.vStr "1"), ("b", JVal.vStr "2")]
    [("b", JVal.vStr "2"), ("a", JVal.vStr "1")]
    (List.Perm.swap ("b", JVal.vStr "2") ("a", JVal.vStr "1") [])
    (by decide) (by decide)).1 "a"

/-- C9: on a tab-delimited structured line whose message portion parses as
a JSON object (even one carrying its own `lambdaRequestId` or `level`
keys), the parser output's `lambdaRequestId` and `level` come from the
line's second and third tab segments: the parsed message is spread first
and the segment-derived fields are applied after, overriding same-named
JSON values. -/
theorem c9_segment_fields_override (g line : String) (o : Obj)
    (hlen : 4 ≤ (jsSplit '\t' line).length)
    (hdate : dateParseValid ((jsSplit '\t' line).headD "") = true)
    (hj : jsonParse (jsTrim (String.intercalate "\t" ((jsSplit '\t' line).drop 3))) =
      some (JVal.vObj o))
    (hk : "lambdaRequestId" ∈ o.map Prod.fst ∨ "level" ∈ o.map Prod.fst) :
    ∃ res, parseLambdaLogLine g line = .ok (JVal.vObj res) ∧
      res = objSet (objSet o "lambdaRequestId"
        (JVal.vStr ((jsSplit '\t' line).getD 1 ""))) "level"
        (JVal.vStr ((jsSplit '\t' line).getD 2 "")) ∧
      objGet res "lambdaRequestId" = some (JVal.vStr ((jsSplit '\t' line).getD 1 "")) ∧
      objGet res "level" = some (JVal.vStr ((jsSplit '\t' line).getD 2 "")) := by
  have hmsg : parseMessageJson (String.intercalate "\t" ((jsSplit '\t' line).drop 3)) =
      JVal.vObj o := by
    simp [parseMessageJson, hj]
  refine ⟨_, parseLambdaLogLine_tab g line hlen hdate, ?_, ?_, ?_⟩
  · rw [hmsg]
    rfl
  · rw [objGet_objSet_ne _ _ _ _ (by decide), objGet_objSet_self]
  · rw [objGet_objSet_self]

theorem c9_witness :
    ∃ res,
      parseLambdaLogLine "g"
        "2023-01-01T00:00:00Z\treq-9\tWARN\t\x7b\"lambdaRequestId\":\"zzz\",\"level\":\"ERROR\"\x7d" =
        .ok (JVal.vObj res) ∧
      res = objSet (objSet [("lambdaRequestId", JVal.vStr "zzz"),
          ("level", JVal.vStr "ERROR")] "lambdaRequestId"
        (JVal.vStr ((jsSplit '\t'
          "2023-01-01T00:00:00Z\treq-9\tWARN\t\x7b\"lambdaRequestId\":\"zzz\",\"level\":\"ERROR\"\x7d").getD 1 ""))) "level"
        (JVal.vStr ((jsSplit '\t'
          "2023-01-01T00:00:00Z\treq-9\tWARN\t\x7b\"lambdaRequestId\":\"zzz\",\"level\":\"ERROR\"\x7d").getD 2 "")) ∧
      objGet res "lambdaRequestId" =
        some (JVal.vStr ((jsSplit '\t'
          "2023-01-01T00:00:00Z\treq-9\tWARN\t\x7b\"lambdaRequestId\":\"zzz\",\"level\":\"ERROR\"\x7d").getD 1 "")) ∧
      objGet res "level" =
        some (JVal.vStr ((jsSplit '\t'
          "2023-01-01T00:00:00Z\treq-9\tWARN\t\x7b\"lambdaRequestId\":\"zzz\",\"level\":\"ERROR\"\x7d").getD 2 "")) :=
  c9_segment_fields_override "g"
    "2023-01-01T00:00:00Z\treq-9\tWARN\t\x7b\"lambdaRequestId\":\"zzz\",\"level\":\"ERROR\"\x7d"
    [("lambdaRequestId", JVal.vStr "zzz"), ("level", JVal.vStr "ERROR")]
    (by decide) (by decide) rfl (Or.inl (by decide))

/-- C10: with an empty supplemental mapping, `createStructuredLog` changes
no parser-produced field other than `@timestamp`, `cloudwatchId` and
`cloudwatchLogGroup`: every other key of the parsed record's property list
looks up unchanged in the output, and in particular every
`overwrittenFields.*` key looks up exactly as in the parser output (none
are added). -/
theorem c10_empty_mapping_frame (g : String) (ev : LogEvent) (r : Obj) (sl : JVal)
    (props : Obj)
    (h : createStructuredLog g ev [] = .ok r)
    (hp : parseLambdaLogLine g (jsTrim ev.message) = .ok sl)
    (hpr : toObjectProps sl = .ok props) :
    (∀ q, q ≠ "@timestamp" → q ≠ "cloudwatchId" → q ≠ "cloudwatchLogGroup" →
      objGet r q = objGet props q) ∧
    (∀ k, objGet r ("overwrittenFields." ++ k) =
      objGet props ("overwrittenFields." ++ k)) := by
  obtain ⟨sl0, ts0, props0, hp0, hts0, hpr0, hr⟩ := createStructuredLog_ok h
  rw [hp] at hp0
  have hsl : sl = sl0 := by injection hp0
  subst hsl
  rw [hpr] at hpr0
  have hps : props = props0 := by injection hpr0
  subst hps
  subst hr
  constructor
  · intro q h1 h2 h3
    simp only [enrichFields, List.foldl_nil]
    rw [objGet_objSet_ne _ _ _ _ h3, objGet_objSet_ne _ _ _ _ h2,
      objGet_objSet_ne _ _ _ _ h1]
  · intro k
    simp only [enrichFields, List.foldl_nil]
    rw [objGet_objSet_ne _ _ _ _ (Ne.symm (bk_ne_of_head (by decide) k)),
      objGet_objSet_ne _ _ _ _ (Ne.symm (bk_ne_of_head (by decide) k)),
      objGet_objSet_ne _ _ _ _ (Ne.symm (bk_ne_of_head (by decide) k))]

theorem c10_witness :
    objGet [("message", JVal.vStr "hello"),
            ("@timestamp", JVal.vStr "1970-01-01T00:00:00.000Z"),
            ("cloudwatchId", JVal.vStr "id1"), ("cloudwatchLogGroup", JVal.vStr "g")]
      "message" = objGet [("message", JVal.vStr "hello")] "message" :=
  (c10_empty_mapping_frame "g" ⟨"id1", 0, "hello"⟩
    [("message", JVal.vStr "hello"),
     ("@timestamp", JVal.vStr "1970-01-01T00:00:00.000Z"),
     ("cloudwatchId", JVal.vStr "id1"), ("cloudwatchLogGroup", JVal.vStr "g")]
    (JVal.vObj [("message", JVal.vStr "hello")])
    [("message", JVal.vStr "hello")] rfl rfl rfl).1
    "message" (by decide) (by decide) (by decide)

end CWL
